import Mathlib

/-!
Verification development for the fandom-tracker influence engine.

Shallow embedding of:
  * `src/analyzers/influence_score.py` — per-run composite scorer
    (`calculate_signal_score`, `position_to_score`);
  * `src/signal_app/metrics.py` — value normalizer (`normalize_value`);
  * `src/app/ingest.py` and `src/signal_app/ingest.py` — ingestion passes
    (store effect of `run_demo_ingest`, `run_lastfm_ingest`,
    `run_rss_ingest`, including the same-pass source aggregator);
  * `src/app/queries.py` — time-series delta query
    (`compute_latest_deltas`).

DataFrames become lists of records; nullable columns become `Option`;
numeric columns carrying counts become `ℕ`, ranks become `Option ℤ`,
general numeric values become `ℚ`.  Python's `round` (banker's rounding)
is modelled exactly on `ℚ`.
-/

/-! ## Rounding: Python's `round(x, ndigits)` on exact rationals -/

/-- Round a rational to the nearest integer, ties to the even integer
(Python's `round` semantics, exact on rationals). -/
def roundHalfEven (q : ℚ) : ℤ :=
  let n := ⌊q⌋
  let frac := q - n
  if frac < 1 / 2 then n
  else if 1 / 2 < frac then n + 1
  else if n % 2 = 0 then n else n + 1

/-- Python's `round(q, d)`: scale by `10^d`, round half to even, unscale. -/
def pyRound (q : ℚ) (d : ℕ) : ℚ :=
  (roundHalfEven (q * 10 ^ d) : ℚ) / 10 ^ d

/-! ## Composite scorer batch rows (`calculate_signal_score` inputs)

`x_df` rows carry per-post engagement and follower counts, `yt_df` rows
carry view counts, `chart_df` rows carry up to four nullable ranks. -/

/-- One row of the social (X) batch. -/
structure XRow where
  celebrity : String
  category : String
  engagement : ℕ
  follower_count : ℕ
  has_product_mention : Bool
deriving DecidableEq, Repr

/-- One row of the video (YouTube) batch. -/
structure YtRow where
  celebrity : String
  category : String
  views : ℕ
deriving DecidableEq, Repr

/-- One row of the chart batch: four nullable 1-based rank fields. -/
structure ChartRow where
  celebrity : String
  category : String
  spotify_position : Option ℤ
  billboard_hot100 : Option ℤ
  billboard_200 : Option ℤ
  melon_position : Option ℤ
deriving DecidableEq, Repr

/-- One output row of `calculate_signal_score`. -/
structure ResultRow where
  celebrity : String
  category : String
  signal_score : ℚ
  x_engagement_rate : ℚ
  youtube_views : ℤ
  chart_position : Option ℤ
  product_mentions : ℤ
  x_component : ℚ
  yt_component : ℚ
  chart_component : ℚ
deriving DecidableEq, Repr

/-! ## Universe of scored persons (the Python set union of `celebrity`) -/

/-- Deduplicate, keeping first occurrences, skipping anything in `seen`. -/
def dedupAux (seen : List String) : List String → List String
  | [] => []
  | x :: xs => if x ∈ seen then dedupAux seen xs else x :: dedupAux (x :: seen) xs

/-- The union `x_celebs | yt_celebs | chart_celebs` of artist names
(`chart_df is None` and empty chart both contribute nothing). -/
def allCelebs (x_df : List XRow) (yt_df : List YtRow)
    (chart_df : Option (List ChartRow)) : List String :=
  dedupAux []
    (x_df.map (·.celebrity) ++ yt_df.map (·.celebrity) ++
      (match chart_df with
       | none => []
       | some l => l.map (·.celebrity)))

/-! ## Per-source component scores -/

/-- `celeb_x['engagement'].mean()` over a person's social rows. -/
def meanEngagement (rows : List XRow) : ℚ :=
  ((rows.map (·.engagement)).sum : ℚ) / rows.length

/-- `avg_engagement / follower_count * 100` guarded by `follower_count > 0`
(zero followers give a zero rate, no division fault). -/
def engagementRate (avg f : ℚ) : ℚ :=
  if 0 < f then avg / f * 100 else 0

/-- `x_score = min(engagement_rate * 20, 100)`. -/
def xScoreOf (avg f : ℚ) : ℚ :=
  min (engagementRate avg f * 20) 100

/-- The social rows of one person: `x_df[x_df['celebrity'] == c]`. -/
def xRowsFor (x_df : List XRow) (c : String) : List XRow :=
  x_df.filter (fun r => r.celebrity = c)

/-- Social component of one person; `0` when the person has no social rows. -/
def xScoreFor (x_df : List XRow) (c : String) : ℚ :=
  match xRowsFor x_df c with
  | [] => 0
  | r :: rs => xScoreOf (meanEngagement (r :: rs)) r.follower_count

/-- `engagement_rate` of one person (diagnostic output). -/
def rateFor (x_df : List XRow) (c : String) : ℚ :=
  match xRowsFor x_df c with
  | [] => 0
  | r :: rs => engagementRate (meanEngagement (r :: rs)) r.follower_count

/-- `celeb_x['has_product_mention'].sum()`. -/
def mentionsFor (x_df : List XRow) (c : String) : ℤ :=
  ((xRowsFor x_df c).filter (fun r => r.has_product_mention)).length

/-- The video rows of one person. -/
def ytRowsFor (yt_df : List YtRow) (c : String) : List YtRow :=
  yt_df.filter (fun r => r.celebrity = c)

/-- `total_views = celeb_yt['views'].sum()`. -/
def viewsFor (yt_df : List YtRow) (c : String) : ℕ :=
  ((ytRowsFor yt_df c).map (·.views)).sum

/-- `yt_score = min(total_views / 1_000_000 * 10, 100)`. -/
def ytScoreOf (views : ℚ) : ℚ :=
  min (views / 1000000 * 10) 100

/-- Video component of one person; `0` when the person has no video rows. -/
def ytScoreFor (yt_df : List YtRow) (c : String) : ℚ :=
  match ytRowsFor yt_df c with
  | [] => 0
  | _ :: _ => ytScoreOf (viewsFor yt_df c)

/-! ## Chart component -/

/-- `position_to_score(position, max_position)`:
null → 0; beyond the chart's ceiling → 0; else `max(100 - (position-1), 0)`. -/
def position_to_score (position : Option ℤ) (max_position : ℤ) : ℤ :=
  match position with
  | none => 0
  | some p => if max_position < p then 0 else max (100 - (p - 1)) 0

/-- The chart rows of one person (`chart_df is None` gives no rows). -/
def chartRowsFor (chart_df : Option (List ChartRow)) (c : String) : List ChartRow :=
  match chart_df with
  | none => []
  | some l => l.filter (fun r => r.celebrity = c)

/-- The `(weight, score)` pairs appended for fields with a positive score:
Spotify 0.40, Billboard Hot 100 0.30, Billboard 200 0.15, and Melon 0.15
only for the K-pop category. -/
def chartParts (category : String) (sp bh b2 me : ℤ) : List (ℚ × ℚ) :=
  (if 0 < sp then [((0.40 : ℚ), (sp : ℚ))] else []) ++
  (if 0 < bh then [((0.30 : ℚ), (bh : ℚ))] else []) ++
  (if 0 < b2 then [((0.15 : ℚ), (b2 : ℚ))] else []) ++
  (if category = "K-pop" ∧ 0 < me then [((0.15 : ℚ), (me : ℚ))] else [])

/-- `sum(w * s) / total_weight` when any field participates, else 0. -/
def chartScoreOf (parts : List (ℚ × ℚ)) : ℚ :=
  if parts = [] then 0
  else (parts.map (fun p => p.1 * p.2)).sum / (parts.map (·.1)).sum

/-- Chart component of one chart row given the resolved category. -/
def chartComponentOf (row : ChartRow) (category : String) : ℚ :=
  chartScoreOf (chartParts category
    (position_to_score row.spotify_position 200)
    (position_to_score row.billboard_hot100 100)
    (position_to_score row.billboard_200 200)
    (position_to_score row.melon_position 100))

/-- Chart component of one person; 0 when the person has no chart rows. -/
def chartScoreFor (chart_df : Option (List ChartRow)) (category c : String) : ℚ :=
  match chartRowsFor chart_df c with
  | [] => 0
  | row :: _ => chartComponentOf row category

/-- Best (lowest) rank among the present rank fields, for display. -/
def bestPositionOf (l : List (Option ℤ)) : Option ℤ :=
  l.foldl
    (fun best p =>
      match p, best with
      | none, b => b
      | some v, none => some v
      | some v, some b => if v < b then some v else some b)
    none

/-- `chart_position` of one person; `None` without chart rows. -/
def bestPositionFor (chart_df : Option (List ChartRow)) (c : String) : Option ℤ :=
  match chartRowsFor chart_df c with
  | [] => none
  | row :: _ =>
      bestPositionOf [row.spotify_position, row.billboard_hot100,
        row.billboard_200, row.melon_position]

/-! ## Category resolution and the per-person result row -/

/-- Category from the first batch containing the person, in the fixed
order social, video, chart; `"Other"` when absent everywhere. -/
def categoryOf (x_df : List XRow) (yt_df : List YtRow)
    (chart_df : Option (List ChartRow)) (c : String) : String :=
  match xRowsFor x_df c with
  | r :: _ => r.category
  | [] =>
    match ytRowsFor yt_df c with
    | r :: _ => r.category
    | [] =>
      match chartRowsFor chart_df c with
      | r :: _ => r.category
      | [] => "Other"

/-- One iteration of the scoring loop: the result row of one person.
`signal_score = (0.3 * x_score) + (0.2 * yt_score) + (0.5 * chart_score)`,
each reported number rounded as in the source. -/
def scoreOne (x_df : List XRow) (yt_df : List YtRow)
    (chart_df : Option (List ChartRow)) (c : String) : ResultRow :=
  let category := categoryOf x_df yt_df chart_df c
  let x_score := xScoreFor x_df c
  let yt_score := ytScoreFor yt_df c
  let chart_score := chartScoreFor chart_df category c
  { celebrity := c
    category := category
    signal_score := pyRound (0.3 * x_score + 0.2 * yt_score + 0.5 * chart_score) 1
    x_engagement_rate :=
      match xRowsFor x_df c with
      | [] => 0
      | _ :: _ => pyRound (rateFor x_df c) 3
    youtube_views := (viewsFor yt_df c : ℤ)
    chart_position := bestPositionFor chart_df c
    product_mentions := mentionsFor x_df c
    x_component := pyRound x_score 1
    yt_component := pyRound yt_score 1
    chart_component := pyRound chart_score 1 }

/-! ## Final sort and the scorer itself -/

/-- Insert into a list already sorted by descending `signal_score`. -/
def insertDesc (r : ResultRow) : List ResultRow → List ResultRow
  | [] => [r]
  | s :: rest =>
      if s.signal_score < r.signal_score then r :: s :: rest
      else s :: insertDesc r rest

/-- `sort_values('signal_score', ascending=False)`. -/
def sortByScoreDesc : List ResultRow → List ResultRow
  | [] => []
  | r :: rest => insertDesc r (sortByScoreDesc rest)

/-- `calculate_signal_score(x_df, yt_df, chart_df)`.  With an empty
universe the row list is empty, `pd.DataFrame([])` has no columns, and
`sort_values('signal_score')` raises `KeyError`; that fault is the
`Except.error` branch. -/
def calculate_signal_score (x_df : List XRow) (yt_df : List YtRow)
    (chart_df : Option (List ChartRow)) : Except String (List ResultRow) :=
  let celebs := allCelebs x_df yt_df chart_df
  if celebs = [] then Except.error "KeyError: signal_score"
  else Except.ok (sortByScoreDesc (celebs.map (scoreOne x_df yt_df chart_df)))

/-! ## Value normalizer (`src/signal_app/metrics.py`) -/

/-- `BRAND_TIER_ORDER.get(t, None)`. -/
def BRAND_TIER_ORDER (t : String) : Option ℚ :=
  if t = "Global Ambassador" then some 1
  else if t = "Ambassador" then some 2
  else if t = "House Friend" then some 3
  else if t = "Appearance" then some 4
  else none

/-- `normalize_value(metric_key, value_num, value_text)`: the ordinal
`brand_tier` metric with a truthy (present, non-empty) text is looked up
in the tier table, text preserved; everything else passes through. -/
def normalize_value (metric_key : String) (value_num : Option ℚ)
    (value_text : Option String) : Option ℚ × Option String :=
  match value_text with
  | some t =>
      if metric_key = "brand_tier" ∧ t ≠ "" then (BRAND_TIER_ORDER t, some t)
      else (value_num, some t)
  | none => (value_num, none)

/-! ## Observation store (`src/app/db.py` rows, write paths of the
ingestion passes)

An observation row is keyed by `(person_id, metric_key, date)`
(`uniq_person_metric_date`).  Dates are modelled as day numbers. -/

/-- A stored observation row (the key fields and the value fields the
claims touch). -/
structure StoredObs where
  person_id : ℕ
  metric_key : String
  date : ℕ
  value_num : Option ℚ
  value_text : Option String
deriving DecidableEq, Repr

/-- The unique key `(person_id, metric_key, date)`. -/
def obsKey (o : StoredObs) : ℕ × String × ℕ :=
  (o.person_id, o.metric_key, o.date)

/-- The delete-matching-key-then-add write used by `run_lastfm_ingest`
and the write loop of `run_rss_ingest`. -/
def upsertObs (store : List StoredObs) (o : StoredObs) : List StoredObs :=
  store.filter (fun r => obsKey r ≠ obsKey o) ++ [o]

/-- Key uniqueness of the store (`uniq_person_metric_date`). -/
def keyUnique (store : List StoredObs) : Prop :=
  (store.map obsKey).Nodup

/-- Store effect of `run_lastfm_ingest` / the `run_rss_ingest` write
loop: one keyed upsert per produced observation.  The produced batch is
a parameter (it comes from the network / the aggregator). -/
def runUpsertPass (store : List StoredObs) (writes : List StoredObs) :
    List StoredObs :=
  writes.foldl upsertObs store

/-- Store effect of `run_demo_ingest`: `delete(Observation)` with no
filter clears the whole table, then every demo row is added. -/
def runDemoPass (_store : List StoredObs) (writes : List StoredObs) :
    List StoredObs :=
  writes.foldl (fun s o => s ++ [o]) []

/-! ## Same-pass source aggregator (`run_rss_ingest`, observations dict) -/

/-- One parsed RSS observation reaching the aggregation dict. -/
structure AggEntry where
  person_id : ℕ
  metric_key : String
  date : ℕ
  value_num : ℚ
deriving DecidableEq, Repr

/-- The dict key `(person.id, metric_key, entry date)`. -/
def aggKey (e : AggEntry) : ℕ × String × ℕ :=
  (e.person_id, e.metric_key, e.date)

/-- `min` under `lower_is_better` directionality, `max` otherwise. -/
def reconcile (directionality : String) (current incoming : ℚ) : ℚ :=
  if directionality = "lower_is_better" then min current incoming
  else max current incoming

/-- First-match lookup in the insertion-ordered dict. -/
def lookupA (acc : List ((ℕ × String × ℕ) × ℚ)) (k : ℕ × String × ℕ) :
    Option ℚ :=
  match acc with
  | [] => none
  | p :: rest => if p.1 = k then some p.2 else lookupA rest k

/-- In-place value update of an existing dict key (keeps positions, as a
Python dict does). -/
def updateA : List ((ℕ × String × ℕ) × ℚ) → (ℕ × String × ℕ) → ℚ →
    List ((ℕ × String × ℕ) × ℚ)
  | [], _, _ => []
  | p :: rest, k, v => (if p.1 = k then (k, v) else p) :: updateA rest k v

/-- One step of the dict build: a key seen before is reconciled under
the metric's directionality, a new key is appended. -/
def aggUpdate (dirOf : String → String)
    (acc : List ((ℕ × String × ℕ) × ℚ)) (e : AggEntry) :
    List ((ℕ × String × ℕ) × ℚ) :=
  match lookupA acc (aggKey e) with
  | some current =>
      updateA acc (aggKey e) (reconcile (dirOf e.metric_key) current e.value_num)
  | none => acc ++ [(aggKey e, e.value_num)]

/-- The whole aggregation pass over the parsed entries, in order. -/
def aggregatePass (dirOf : String → String) (entries : List AggEntry) :
    List ((ℕ × String × ℕ) × ℚ) :=
  entries.foldl (aggUpdate dirOf) []

/-- The values observed for one key, in entry order. -/
def valuesFor (k : ℕ × String × ℕ) (entries : List AggEntry) : List ℚ :=
  (entries.filter (fun e => aggKey e = k)).map (·.value_num)

/-- One reconciliation step on an optional current dict value. -/
def combineO (dir : String) (o : Option ℚ) (v : ℚ) : Option ℚ :=
  match o with
  | none => some v
  | some c => some (reconcile dir c v)

/-! ## Delta query (`compute_latest_deltas` in `src/app/queries.py`) -/

/-- One observation row as read back by `load_observations_df`. -/
structure ObsQ where
  person : String
  metric_key : String
  date : ℕ
  value_num : Option ℚ
deriving DecidableEq, Repr

/-- The rows of one `(person, metric_key)` group, in frame order. -/
def obsFor (df : List ObsQ) (p m : String) : List ObsQ :=
  df.filter (fun o => o.person = p ∧ o.metric_key = m)

/-- Insert into a list sorted by ascending date. -/
def insertByDate (o : ObsQ) : List ObsQ → List ObsQ
  | [] => [o]
  | r :: rest => if o.date ≤ r.date then o :: r :: rest else r :: insertByDate o rest

/-- `sort_values("date")`. -/
def sortByDate : List ObsQ → List ObsQ
  | [] => []
  | o :: rest => insertByDate o (sortByDate rest)

/-- `delta` of one `(person, metric)` group: latest `value_num` minus the
second-latest by date; `None` (pandas `NaN`) when fewer than two rows
exist or either value is missing. -/
def deltaFor (df : List ObsQ) (p m : String) : Option ℚ :=
  match (sortByDate (obsFor df p m)).reverse with
  | latest :: previous :: _ =>
      match latest.value_num, previous.value_num with
      | some vl, some vp => some (vl - vp)
      | _, _ => none
  | _ => none

/-! ## Spec-side definition of the chart component (for the refinement
claim about renormalized weights) -/

/-- Modelled from the spec's words: the four `(fixed weight, converted
score)` fields in order — primary streaming 40, sales chart A 30, sales
chart B 15, and the regional field 15 only when the category matches its
K-pop gate — restricted to the fields whose converted score is
positive. -/
def participatingFields (row : ChartRow) (category : String) : List (ℚ × ℚ) :=
  (([((0.40 : ℚ), ((position_to_score row.spotify_position 200 : ℤ) : ℚ)),
     ((0.30 : ℚ), ((position_to_score row.billboard_hot100 100 : ℤ) : ℚ)),
     ((0.15 : ℚ), ((position_to_score row.billboard_200 200 : ℤ) : ℚ))] ++
    (if category = "K-pop" then
      [((0.15 : ℚ), ((position_to_score row.melon_position 100 : ℤ) : ℚ))]
     else [])).filter (fun p => 0 < p.2))

/-- Modelled from the spec's words: each participating field's weight is
renormalized by the sum of the participating weights (so the renormalized
weights sum to one), and the component is the resulting weighted average;
with no participating field the component is `0`. -/
def chartComponentSpec (row : ChartRow) (category : String) : ℚ :=
  let parts := participatingFields row category
  if parts = [] then 0
  else (parts.map (fun p => p.1 / (parts.map (·.1)).sum * p.2)).sum

/-! ## Rank validity (the chart batch schema: 1-based ranks) -/

/-- A nullable rank field is valid when any present rank is 1-based. -/
def validRank (p : Option ℤ) : Prop :=
  ∀ r, p = some r → 1 ≤ r

/-- All four rank fields of a chart row are valid. -/
def validChartRow (row : ChartRow) : Prop :=
  validRank row.spotify_position ∧ validRank row.billboard_hot100 ∧
    validRank row.billboard_200 ∧ validRank row.melon_position

/-- Every row of a supplied chart batch is valid (no batch is trivially
valid). -/
def validChartBatch : Option (List ChartRow) → Prop
  | none => True
  | some l => ∀ row ∈ l, validChartRow row

/-! # Theorems -/

/-! ## Helper lemmas for rounding -/

lemma le_roundHalfEven {n : ℤ} {q : ℚ} (h : (n : ℚ) ≤ q) :
    n ≤ roundHalfEven q := by
  have hfl : n ≤ ⌊q⌋ := Int.le_floor.2 h
  unfold roundHalfEven
  dsimp only
  split_ifs <;> omega

lemma roundHalfEven_le {n : ℤ} {q : ℚ} (h : q ≤ (n : ℚ)) :
    roundHalfEven q ≤ n := by
  have hfl : ⌊q⌋ ≤ n := by
    have := Int.floor_le_floor h
    simpa using this
  have hq : (⌊q⌋ : ℚ) ≤ q := Int.floor_le q
  unfold roundHalfEven
  dsimp only
  split_ifs with h1 h2 h3
  · exact hfl
  · -- strictly-above-half fraction: the floor is strictly below `n`
    rcases lt_or_eq_of_le hfl with hlt | heq
    · omega
    · exfalso
      have hq2 : q ≤ (⌊q⌋ : ℚ) := by rw [heq]; exact_mod_cast h
      have : q - (⌊q⌋ : ℚ) ≤ 0 := by linarith
      linarith
  · exact hfl
  · rcases lt_or_eq_of_le hfl with hlt | heq
    · omega
    · exfalso
      have hq2 : q ≤ (⌊q⌋ : ℚ) := by rw [heq]; exact_mod_cast h
      have hfrac : q - (⌊q⌋ : ℚ) ≤ 0 := by linarith
      have hhalf : ¬ q - (⌊q⌋ : ℚ) < 1 / 2 := h1
      linarith

lemma pyRound1_bounds {q : ℚ} (h0 : 0 ≤ q) (h1 : q ≤ 100) :
    0 ≤ pyRound q 1 ∧ pyRound q 1 ≤ 100 := by
  have hlo : (0 : ℤ) ≤ roundHalfEven (q * 10 ^ 1) := by
    apply le_roundHalfEven
    push_cast
    nlinarith
  have hhi : roundHalfEven (q * 10 ^ 1) ≤ (1000 : ℤ) := by
    apply roundHalfEven_le
    push_cast
    nlinarith
  unfold pyRound
  constructor
  · apply div_nonneg _ (by norm_num)
    exact_mod_cast hlo
  · rw [div_le_iff₀ (by norm_num : (0 : ℚ) < 10 ^ 1)]
    calc ((roundHalfEven (q * 10 ^ 1) : ℤ) : ℚ) ≤ 1000 := by exact_mod_cast hhi
    _ = 100 * 10 ^ 1 := by norm_num

/-! ## C7 — value normalizer -/

/-- C7: `normalize_value` maps a non-empty `brand_tier` text to its rank
in the fixed tier table with the text preserved (an unknown tier text
yields a null numeric, never raising), maps `"Ambassador"` to `2`, and
passes every other metric key through unchanged. -/
theorem claim_C7_normalize_value :
    (∀ (num : Option ℚ) (t : String) (r : ℚ), t ≠ "" →
      BRAND_TIER_ORDER t = some r →
      normalize_value "brand_tier" num (some t) = (some r, some t))
  ∧ (∀ (num : Option ℚ) (t : String), t ≠ "" →
      BRAND_TIER_ORDER t = none →
      normalize_value "brand_tier" num (some t) = (none, some t))
  ∧ (∀ (mk : String) (num : Option ℚ) (txt : Option String),
      mk ≠ "brand_tier" → normalize_value mk num txt = (num, txt))
  ∧ normalize_value "brand_tier" none (some "Ambassador") =
      (some 2, some "Ambassador") := by
  refine ⟨?_, ?_, ?_, ?_⟩
  · intro num t r ht hlook
    simp [normalize_value, ht, hlook]
  · intro num t ht hlook
    simp [normalize_value, ht, hlook]
  · intro mk num txt hmk
    cases txt with
    | none => simp [normalize_value]
    | some t => simp [normalize_value, hmk]
  · rfl

/-- Witness for C7 at concrete input: an unknown tier text yields a null
numeric with the text preserved. -/
theorem claim_C7_witness :
    normalize_value "brand_tier" (some 7) (some "Bestie") =
      (none, some "Bestie") :=
  claim_C7_normalize_value.2.1 (some 7) "Bestie" (by decide) (by rfl)

/-! ## C3 — chart-position scorer -/

/-- C3 as stated is false: with per-chart maximum 200 and rank 150
(within `1 ≤ r ≤ max`), `position_to_score` returns `0`, not
`101 - 150`. -/
theorem claim_C3_counterexample :
    (1 : ℤ) ≤ 150 ∧ (150 : ℤ) ≤ 200 ∧
    position_to_score (some 150) 200 = 0 ∧ (0 : ℤ) ≠ 101 - 150 := by
  refine ⟨by norm_num, by norm_num, by decide, by norm_num⟩

/-- C3 amended: for `1 ≤ r ≤ max` the scorer returns `max (101 - r) 0`
(so it equals `101 - r` only while `r ≤ 101`, rank 1 scores 100, and
rank `max` scores 1 exactly when `max = 100`), while `r > max` or a null
rank scores 0. -/
theorem claim_C3_position_to_score :
    (∀ r maxp : ℤ, 1 ≤ r → r ≤ maxp →
      position_to_score (some r) maxp = max (101 - r) 0)
  ∧ (∀ r maxp : ℤ, 1 ≤ r → r ≤ maxp → r ≤ 101 →
      position_to_score (some r) maxp = 101 - r)
  ∧ (∀ maxp : ℤ, 1 ≤ maxp → position_to_score (some 1) maxp = 100)
  ∧ (∀ r maxp : ℤ, maxp < r → position_to_score (some r) maxp = 0)
  ∧ (∀ maxp : ℤ, position_to_score none maxp = 0) := by
  refine ⟨?_, ?_, ?_, ?_, ?_⟩
  · intro r maxp h1 h2
    simp only [position_to_score, if_neg (not_lt.2 h2)]
    omega
  · intro r maxp h1 h2 h3
    simp only [position_to_score, if_neg (not_lt.2 h2)]
    omega
  · intro maxp h1
    simp only [position_to_score, if_neg (not_lt.2 h1)]
    omega
  · intro r maxp h
    simp only [position_to_score, if_pos h]
  · intro maxp
    rfl

/-- Witness for C3 at concrete input: rank 5 on a 100-deep chart. -/
theorem claim_C3_witness :
    position_to_score (some 5) 100 = max (101 - 5) 0 :=
  claim_C3_position_to_score.1 5 100 (by norm_num) (by norm_num)

/-! ## C6 — chart component as a renormalized weighted average -/

lemma sum_map_div_mul (l : List (ℚ × ℚ)) (W : ℚ) :
    (l.map (fun p => p.1 / W * p.2)).sum = (l.map (fun p => p.1 * p.2)).sum / W := by
  induction l with
  | nil => simp
  | cons h t ih =>
      rw [List.map_cons, List.sum_cons, List.map_cons, List.sum_cons, ih,
        add_div, div_mul_eq_mul_div]

lemma participatingFields_eq (row : ChartRow) (category : String) :
    participatingFields row category =
      chartParts category
        (position_to_score row.spotify_position 200)
        (position_to_score row.billboard_hot100 100)
        (position_to_score row.billboard_200 200)
        (position_to_score row.melon_position 100) := by
  unfold participatingFields chartParts
  by_cases hc : category = "K-pop" <;>
    by_cases h1 : 0 < position_to_score row.spotify_position 200 <;>
    by_cases h2 : 0 < position_to_score row.billboard_hot100 100 <;>
    by_cases h3 : 0 < position_to_score row.billboard_200 200 <;>
    by_cases h4 : 0 < position_to_score row.melon_position 100 <;>
      simp [hc, h1, h2, h3, h4, List.filter_append, Int.cast_pos]

/-- C6: for every chart row the chart component is precisely the spec's
renormalized weighted average over only the positively-scoring fields,
with the Melon field gated to K-pop; and a row with only
`primary_streaming_rank = 1` gets chart component 100. -/
theorem claim_C6_chart_component :
    (∀ (row : ChartRow) (category : String),
      chartComponentOf row category = chartComponentSpec row category)
  ∧ chartComponentOf ⟨"A", "K-pop", some 1, none, none, none⟩ "K-pop" = 100 := by
  constructor
  · intro row category
    simp only [chartComponentOf, chartComponentSpec, chartScoreOf,
      participatingFields_eq]
    split_ifs with h
    · rfl
    · rw [sum_map_div_mul]
  · have h1 : position_to_score (some 1) 200 = 100 := by decide
    have h2 : position_to_score none 100 = 0 := rfl
    have h3 : position_to_score none 200 = 0 := rfl
    simp only [chartComponentOf, h1, h2, h3]
    norm_num [chartParts, chartScoreOf]

/-! ## C1 — weighting regimes of the final score -/

lemma roundHalfEven_intCast (n : ℤ) : roundHalfEven (n : ℚ) = n := by
  unfold roundHalfEven
  dsimp only
  rw [Int.floor_intCast]
  norm_num

/-- C1 as stated is false: with no chart batch the code still weights
`0.3 / 0.2 / 0.5` (the chart term degrading to zero), so one person with
social component 100 and no video or chart data scores 30, not the
claimed `0.6 * 100 + 0.4 * 0 = 60`. -/
theorem claim_C1_counterexample :
    calculate_signal_score [⟨"A", "K-pop", 50000, 1000000, false⟩] [] none =
      Except.ok [scoreOne [⟨"A", "K-pop", 50000, 1000000, false⟩] [] none "A"]
    ∧ (scoreOne [⟨"A", "K-pop", 50000, 1000000, false⟩] [] none "A").x_component = 100
    ∧ (scoreOne [⟨"A", "K-pop", 50000, 1000000, false⟩] [] none "A").signal_score = 30
    ∧ (30 : ℚ) ≠ 0.6 * 100 + 0.4 * 0 := by
  have hx : xScoreFor [⟨"A", "K-pop", 50000, 1000000, false⟩] "A" = 100 := by
    simp only [xScoreFor, xRowsFor, List.filter]
    norm_num [meanEngagement, xScoreOf, engagementRate]
  refine ⟨rfl, ?_, ?_, by norm_num⟩
  · show pyRound (xScoreFor [⟨"A", "K-pop", 50000, 1000000, false⟩] "A") 1 = 100
    rw [hx]
    have h10 : (100 : ℚ) * 10 ^ 1 = ((1000 : ℤ) : ℚ) := by norm_num
    rw [pyRound, h10, roundHalfEven_intCast]
    norm_num
  · show pyRound (0.3 * xScoreFor [⟨"A", "K-pop", 50000, 1000000, false⟩] "A" +
      0.2 * ytScoreFor [] "A" + 0.5 * chartScoreFor none "K-pop" "A") 1 = 30
    rw [hx]
    have hyt : ytScoreFor [] "A" = 0 := rfl
    have hc : chartScoreFor none "K-pop" "A" = 0 := rfl
    rw [hyt, hc]
    have harg : (0.3 : ℚ) * 100 + 0.2 * 0 + 0.5 * 0 = 30 := by norm_num
    rw [harg]
    have h10 : (30 : ℚ) * 10 ^ 1 = ((300 : ℤ) : ℚ) := by norm_num
    rw [pyRound, h10, roundHalfEven_intCast]
    norm_num

/-- C1 amended: the final score is always the rounded
`0.3 * social + 0.2 * video + 0.5 * chart` combination — the same
weights whether or not a chart batch is supplied; without a chart batch
(or with a person absent from it) the chart component is 0, so the
no-chart score is the rounded `0.3 * social + 0.2 * video`, never a
`0.6 / 0.4` reweighting. -/
theorem claim_C1_weights :
    (∀ (x_df : List XRow) (yt_df : List YtRow)
       (chart_df : Option (List ChartRow)) (c : String),
      (scoreOne x_df yt_df chart_df c).signal_score =
        pyRound (0.3 * xScoreFor x_df c + 0.2 * ytScoreFor yt_df c +
          0.5 * chartScoreFor chart_df (categoryOf x_df yt_df chart_df c) c) 1)
  ∧ (∀ category c, chartScoreFor none category c = 0)
  ∧ (∀ category c, chartScoreFor (some []) category c = 0)
  ∧ (∀ (x_df : List XRow) (yt_df : List YtRow)
       (chart_df : Option (List ChartRow)) (c : String),
      chartRowsFor chart_df c = [] →
      (scoreOne x_df yt_df chart_df c).signal_score =
        pyRound (0.3 * xScoreFor x_df c + 0.2 * ytScoreFor yt_df c) 1) := by
  refine ⟨fun _ _ _ _ => rfl, fun _ _ => rfl, fun _ _ => rfl, ?_⟩
  intro x_df yt_df chart_df c h
  have hcs : chartScoreFor chart_df (categoryOf x_df yt_df chart_df c) c = 0 := by
    unfold chartScoreFor
    rw [h]
  show pyRound (0.3 * xScoreFor x_df c + 0.2 * ytScoreFor yt_df c +
      0.5 * chartScoreFor chart_df (categoryOf x_df yt_df chart_df c) c) 1 = _
  rw [hcs]
  congr 1
  ring

/-- Witness for C1 at concrete input: with no batches containing person
"A", the no-chart score is the rounded `0.3 * social + 0.2 * video`. -/
theorem claim_C1_witness :
    (scoreOne [] [] none "A").signal_score =
      pyRound (0.3 * xScoreFor [] "A" + 0.2 * ytScoreFor [] "A") 1 :=
  claim_C1_weights.2.2.2 [] [] none "A" rfl

/-! ## C5 — social component -/

/-- C5: with positive follower count `f` and mean engagement `e` the
social component is `min(e/f*100*20, 100)`, monotone non-decreasing in
`e` and non-increasing in `f`; with `f = 0` it is 0 for every `e`, with
no division fault; and for a person with at least one social row the
component is exactly this function of the row mean and the first row's
follower count. -/
theorem claim_C5_social_component :
    (∀ e f : ℚ, 0 < f → xScoreOf e f = min (e / f * 100 * 20) 100)
  ∧ (∀ f e1 e2 : ℚ, 0 < f → e1 ≤ e2 → xScoreOf e1 f ≤ xScoreOf e2 f)
  ∧ (∀ e f1 f2 : ℚ, 0 ≤ e → 0 < f1 → f1 ≤ f2 →
      xScoreOf e f2 ≤ xScoreOf e f1)
  ∧ (∀ e : ℚ, xScoreOf e 0 = 0)
  ∧ (∀ (x_df : List XRow) (c : String) (r : XRow) (rs : List XRow),
      xRowsFor x_df c = r :: rs →
      xScoreFor x_df c = xScoreOf (meanEngagement (r :: rs)) r.follower_count) := by
  refine ⟨?_, ?_, ?_, ?_, ?_⟩
  · intro e f hf
    simp [xScoreOf, engagementRate, hf]
  · intro f e1 e2 hf he
    simp only [xScoreOf, engagementRate, if_pos hf]
    have h1 : e1 / f * 100 * 20 ≤ e2 / f * 100 * 20 := by gcongr
    exact min_le_min h1 le_rfl
  · intro e f1 f2 he hf1 h12
    have hf2 : 0 < f2 := lt_of_lt_of_le hf1 h12
    simp only [xScoreOf, engagementRate, if_pos hf1, if_pos hf2]
    have h1 : e / f2 * 100 * 20 ≤ e / f1 * 100 * 20 := by gcongr
    exact min_le_min h1 le_rfl
  · intro e
    simp [xScoreOf, engagementRate]
  · intro x_df c r rs h
    unfold xScoreFor
    rw [h]

/-- Witness for C5 at concrete input: elite engagement saturates at 100. -/
theorem claim_C5_witness :
    xScoreOf 50000 1000000 = min ((50000 : ℚ) / 1000000 * 100 * 20) 100 :=
  claim_C5_social_component.1 50000 1000000 (by norm_num)

/-! ## Observation-store lemmas shared by C4 and C9 -/

lemma mem_upsertObs_of_ne {store : List StoredObs} {r o : StoredObs}
    (hr : r ∈ store) (hne : obsKey r ≠ obsKey o) : r ∈ upsertObs store o := by
  unfold upsertObs
  exact List.mem_append_left _ (List.mem_filter.2 ⟨hr, by simpa using hne⟩)

lemma keyUnique_upsertObs {store : List StoredObs} (o : StoredObs)
    (h : keyUnique store) : keyUnique (upsertObs store o) := by
  unfold keyUnique upsertObs
  rw [List.map_append, List.nodup_append]
  refine ⟨?_, by simp, ?_⟩
  · exact h.sublist ((List.filter_sublist store).map obsKey)
  · intro k hk
    simp only [List.map_cons, List.map_nil, List.mem_singleton]
    intro hko
    rcases List.mem_map.1 hk with ⟨r, hrmem, hrk⟩
    have := (List.mem_filter.1 hrmem).2
    simp only [decide_eq_true_eq] at this
    exact this (hrk.trans hko)

lemma keyUnique_runUpsertPass {store : List StoredObs}
    (writes : List StoredObs) (h : keyUnique store) :
    keyUnique (runUpsertPass store writes) := by
  induction writes generalizing store with
  | nil => exact h
  | cons w ws ih => exact ih (keyUnique_upsertObs w h)

lemma mem_runUpsertPass {store writes : List StoredObs} {r : StoredObs}
    (hr : r ∈ store) (hkeys : ∀ w ∈ writes, obsKey w ≠ obsKey r) :
    r ∈ runUpsertPass store writes := by
  induction writes generalizing store with
  | nil => exact hr
  | cons w ws ih =>
      exact ih
        (mem_upsertObs_of_ne hr fun he => hkeys w (List.mem_cons_self w ws) he.symm)
        (fun v hv => hkeys v (List.mem_cons_of_mem w hv))

lemma mem_demoFold {writes acc : List StoredObs} {r : StoredObs}
    (h : r ∈ writes.foldl (fun s o => s ++ [o]) acc) : r ∈ acc ∨ r ∈ writes := by
  induction writes generalizing acc with
  | nil => exact Or.inl h
  | cons w ws ih =>
      rcases ih h with hacc | hws
      · rcases List.mem_append.1 hacc with h1 | h1
        · exact Or.inl h1
        · exact Or.inr (by simpa using Or.inl (List.mem_singleton.1 h1))
      · exact Or.inr (List.mem_cons_of_mem w hws)

/-! ## C4 — frame effect of an ingestion pass -/

/-- C4 as stated is false: `run_demo_ingest` begins with an unfiltered
`delete(Observation)`, so a pass that writes nothing still erases an
existing row with an unwritten key. -/
theorem claim_C4_counterexample :
    (⟨1, "m", 0, some 1, none⟩ : StoredObs) ∈
      ([⟨1, "m", 0, some 1, none⟩] : List StoredObs)
    ∧ runDemoPass [⟨1, "m", 0, some 1, none⟩] [] = []
    ∧ (⟨1, "m", 0, some 1, none⟩ : StoredObs) ∉
        runDemoPass [⟨1, "m", 0, some 1, none⟩] [] := by
  refine ⟨List.mem_singleton.2 rfl, rfl, by simp [runDemoPass]⟩

/-- C4 amended: the Last.fm and RSS ingestion passes (keyed
delete-then-insert) retain every prior row whose key they do not write;
the demo ingestion pass is the exception — it clears the store first, so
after it only rows of its own batch exist. -/
theorem claim_C4_frame :
    (∀ (store writes : List StoredObs) (r : StoredObs), r ∈ store →
      (∀ w ∈ writes, obsKey w ≠ obsKey r) → r ∈ runUpsertPass store writes)
  ∧ (∀ (store writes : List StoredObs) (r : StoredObs),
      r ∈ runDemoPass store writes → r ∈ writes) := by
  constructor
  · intro store writes r hr hkeys
    exact mem_runUpsertPass hr hkeys
  · intro store writes r h
    rcases mem_demoFold h with h1 | h1
    · cases h1
    · exact h1

/-- Witness for C4 at concrete input: a row keyed differently from the
one write of a keyed pass survives the pass. -/
theorem claim_C4_witness :
    (⟨1, "m", 0, some 1, none⟩ : StoredObs) ∈
      runUpsertPass [⟨1, "m", 0, some 1, none⟩] [⟨2, "m", 0, some 9, none⟩] :=
  claim_C4_frame.1 [⟨1, "m", 0, some 1, none⟩] [⟨2, "m", 0, some 9, none⟩]
    ⟨1, "m", 0, some 1, none⟩ (List.mem_singleton.2 rfl)
    (by intro w hw; rw [List.mem_singleton.1 hw]; decide)

/-! ## C9 — keyed upsert: uniqueness, replacement, idempotence -/

lemma upsertObs_filter_key (store : List StoredObs) (o : StoredObs) :
    (upsertObs store o).filter (fun r => obsKey r = obsKey o) = [o] := by
  unfold upsertObs
  rw [List.filter_append]
  have h1 : (store.filter (fun r => obsKey r ≠ obsKey o)).filter
      (fun r => obsKey r = obsKey o) = [] := by
    rw [List.filter_filter]
    apply List.filter_eq_nil_iff.2
    intro r _
    by_cases h : obsKey r = obsKey o <;> simp [h]
  rw [h1]
  simp

/-- C9: a keyed upsert preserves at-most-one-row-per-key (hence any
sequence of upserts from a key-unique store, in particular the empty
store, stays key-unique), leaves exactly one row — the new one — at the
written key, and writing the same observation twice equals writing it
once. -/
theorem claim_C9_upsert :
    (∀ (store : List StoredObs) (o : StoredObs), keyUnique store →
      keyUnique (upsertObs store o))
  ∧ (∀ (store writes : List StoredObs), keyUnique store →
      keyUnique (runUpsertPass store writes))
  ∧ (∀ (writes : List StoredObs), keyUnique (runUpsertPass [] writes))
  ∧ (∀ (store : List StoredObs) (o : StoredObs),
      (upsertObs store o).filter (fun r => obsKey r = obsKey o) = [o])
  ∧ (∀ (store : List StoredObs) (o : StoredObs),
      upsertObs (upsertObs store o) o = upsertObs store o) := by
  refine ⟨fun store o h => keyUnique_upsertObs o h,
    fun store writes h => keyUnique_runUpsertPass writes h,
    fun writes => keyUnique_runUpsertPass writes (by simp [keyUnique]),
    upsertObs_filter_key, ?_⟩
  intro store o
  unfold upsertObs
  rw [List.filter_append, List.filter_filter]
  have h1 : ∀ r : StoredObs,
      (decide (obsKey r ≠ obsKey o) && decide (obsKey r ≠ obsKey o)) =
        decide (obsKey r ≠ obsKey o) := by
    intro r
    by_cases h : obsKey r = obsKey o <;> simp [h]
  rw [List.filter_congr fun r _ => h1 r]
  simp

/-- Witness for C9 at concrete input: upserting into the empty store
keeps the store key-unique. -/
theorem claim_C9_witness :
    keyUnique (upsertObs [] ⟨1, "m", 0, some 1, none⟩) :=
  claim_C9_upsert.1 [] ⟨1, "m", 0, some 1, none⟩ (by simp [keyUnique])

/-! ## C8 — same-pass source aggregator -/

lemma lookupA_append (a b : List ((ℕ × String × ℕ) × ℚ)) (k : ℕ × String × ℕ) :
    lookupA (a ++ b) k =
      match lookupA a k with
      | some v => some v
      | none => lookupA b k := by
  induction a with
  | nil => rfl
  | cons p rest ih =>
      by_cases h : p.1 = k <;> simp [lookupA, h, ih]

lemma lookupA_updateA_self {acc : List ((ℕ × String × ℕ) × ℚ)}
    {k : ℕ × String × ℕ} {c : ℚ} (v : ℚ) (h : lookupA acc k = some c) :
    lookupA (updateA acc k v) k = some v := by
  induction acc with
  | nil => cases h
  | cons p rest ih =>
      by_cases hp : p.1 = k
      · simp [updateA, lookupA, hp]
      · simp only [lookupA, if_neg hp] at h
        simp [updateA, lookupA, hp, ih h]

lemma lookupA_updateA_ne {acc : List ((ℕ × String × ℕ) × ℚ)}
    {k k2 : ℕ × String × ℕ} (v : ℚ) (h : k2 ≠ k) :
    lookupA (updateA acc k v) k2 = lookupA acc k2 := by
  induction acc with
  | nil => rfl
  | cons p rest ih =>
      by_cases hp : p.1 = k
      · have hne : k ≠ k2 := fun he => h he.symm
        have hp2 : p.1 ≠ k2 := by rw [hp]; exact hne
        simp [updateA, lookupA, hp, hne, hp2, ih]
      · simp [updateA, lookupA, hp, ih]

lemma lookupA_eq_none_iff (acc : List ((ℕ × String × ℕ) × ℚ))
    (k : ℕ × String × ℕ) :
    lookupA acc k = none ↔ k ∉ acc.map Prod.fst := by
  induction acc with
  | nil => simp [lookupA]
  | cons p rest ih =>
      by_cases hp : p.1 = k
      · simp [lookupA, hp]
      · have hk : k ≠ p.1 := fun he => hp he.symm
        simp [lookupA, hp, hk, ih]

lemma map_fst_updateA (acc : List ((ℕ × String × ℕ) × ℚ))
    (k : ℕ × String × ℕ) (v : ℚ) :
    (updateA acc k v).map Prod.fst = acc.map Prod.fst := by
  induction acc with
  | nil => rfl
  | cons p rest ih =>
      by_cases hp : p.1 = k <;> simp [updateA, hp, ih]

lemma nodup_keys_aggUpdate {dirOf : String → String}
    {acc : List ((ℕ × String × ℕ) × ℚ)} {e : AggEntry}
    (h : (acc.map Prod.fst).Nodup) :
    ((aggUpdate dirOf acc e).map Prod.fst).Nodup := by
  unfold aggUpdate
  cases hl : lookupA acc (aggKey e) with
  | some c => rw [map_fst_updateA]; exact h
  | none =>
      rw [List.map_append, List.nodup_append]
      refine ⟨h, by simp, ?_⟩
      intro k hk
      simp only [List.map_cons, List.map_nil, List.mem_singleton]
      intro he
      rw [he] at hk
      exact (lookupA_eq_none_iff acc (aggKey e)).1 hl hk

lemma nodup_keys_aggFold (dirOf : String → String) (entries : List AggEntry) :
    ∀ acc : List ((ℕ × String × ℕ) × ℚ), (acc.map Prod.fst).Nodup →
      (((entries.foldl (aggUpdate dirOf) acc)).map Prod.fst).Nodup := by
  induction entries with
  | nil => intro acc h; exact h
  | cons e es ih => intro acc h; exact ih _ (nodup_keys_aggUpdate h)

lemma valuesFor_cons (k : ℕ × String × ℕ) (e : AggEntry) (es : List AggEntry) :
    valuesFor k (e :: es) =
      if aggKey e = k then e.value_num :: valuesFor k es else valuesFor k es := by
  unfold valuesFor
  by_cases h : aggKey e = k <;> simp [List.filter, h]

lemma lookupA_aggUpdate (dirOf : String → String)
    (acc : List ((ℕ × String × ℕ) × ℚ)) (e : AggEntry) (k : ℕ × String × ℕ) :
    lookupA (aggUpdate dirOf acc e) k =
      if aggKey e = k then
        combineO (dirOf e.metric_key) (lookupA acc k) e.value_num
      else lookupA acc k := by
  unfold aggUpdate
  cases hl : lookupA acc (aggKey e) with
  | some c =>
      by_cases hk : aggKey e = k
      · rw [if_pos hk]
        rw [← hk, hl]
        exact lookupA_updateA_self _ hl
      · rw [if_neg hk, lookupA_updateA_ne _ fun he => hk he.symm]
  | none =>
      rw [lookupA_append]
      by_cases hk : aggKey e = k
      · rw [if_pos hk, ← hk, hl]
        simp [lookupA, combineO]
      · rw [if_neg hk]
        cases h2 : lookupA acc k with
        | some v => rfl
        | none => simp [lookupA, hk]

lemma lookupA_aggFold (dirOf : String → String) (entries : List AggEntry) :
    ∀ (acc : List ((ℕ × String × ℕ) × ℚ)) (k : ℕ × String × ℕ),
      lookupA (entries.foldl (aggUpdate dirOf) acc) k =
        (valuesFor k entries).foldl (combineO (dirOf k.2.1)) (lookupA acc k) := by
  induction entries with
  | nil => intro acc k; rfl
  | cons e es ih =>
      intro acc k
      rw [List.foldl_cons, ih, valuesFor_cons]
      by_cases hk : aggKey e = k
      · rw [if_pos hk, List.foldl_cons, lookupA_aggUpdate, if_pos hk]
        have hm : e.metric_key = k.2.1 := by rw [← hk]; rfl
        rw [hm]
      · rw [if_neg hk, lookupA_aggUpdate, if_neg hk]

lemma foldl_combineO_some (dir : String) (v : ℚ) (vs : List ℚ) :
    vs.foldl (combineO dir) (some v) = some (vs.foldl (reconcile dir) v) := by
  induction vs generalizing v with
  | nil => rfl
  | cons w ws ih => simp [List.foldl_cons, combineO, ih]

/-- C8: the same-pass aggregation dict holds at most one row per
`(person, metric, date)` key; the value kept for a key is the fold of
the directional reconciliation (minimum under `lower_is_better`,
maximum otherwise) over every value observed for that key, in order; a
key never observed is absent; and the values 5 then 3 under
`lower_is_better` reconcile to 3. -/
theorem claim_C8_aggregator :
    (∀ (dirOf : String → String) (entries : List AggEntry),
      ((aggregatePass dirOf entries).map Prod.fst).Nodup)
  ∧ (∀ (dirOf : String → String) (entries : List AggEntry)
       (k : ℕ × String × ℕ) (v : ℚ) (vs : List ℚ),
      valuesFor k entries = v :: vs →
      lookupA (aggregatePass dirOf entries) k =
        some (vs.foldl (reconcile (dirOf k.2.1)) v))
  ∧ (∀ (dirOf : String → String) (entries : List AggEntry)
       (k : ℕ × String × ℕ),
      valuesFor k entries = [] →
      lookupA (aggregatePass dirOf entries) k = none)
  ∧ reconcile "lower_is_better" 5 3 = 3
  ∧ aggregatePass (fun _ => "lower_is_better")
      [⟨1, "m", 0, 5⟩, ⟨1, "m", 0, 3⟩] = [((1, "m", 0), 3)] := by
  refine ⟨?_, ?_, ?_, ?_, ?_⟩
  · intro dirOf entries
    exact nodup_keys_aggFold dirOf entries [] (by simp)
  · intro dirOf entries k v vs h
    unfold aggregatePass
    rw [lookupA_aggFold dirOf entries [] k, h]
    show (v :: vs).foldl (combineO (dirOf k.2.1)) none = _
    rw [List.foldl_cons]
    exact foldl_combineO_some _ v vs
  · intro dirOf entries k h
    unfold aggregatePass
    rw [lookupA_aggFold dirOf entries [] k, h]
    rfl
  · norm_num [reconcile]
  · rfl

/-- Witness for C8 at concrete input: two observations of the same key
with values 5 then 3 under `lower_is_better` aggregate to 3. -/
theorem claim_C8_witness :
    lookupA (aggregatePass (fun _ => "lower_is_better")
        [⟨1, "m", 0, 5⟩, ⟨1, "m", 0, 3⟩]) (1, "m", 0) =
      some ([3].foldl (reconcile "lower_is_better") 5) :=
  claim_C8_aggregator.2.1 (fun _ => "lower_is_better")
    [⟨1, "m", 0, 5⟩, ⟨1, "m", 0, 3⟩] (1, "m", 0) 5 [3] rfl

/-! ## C10 — time-series delta query -/

lemma insertByDate_perm (o : ObsQ) (l : List ObsQ) :
    (insertByDate o l).Perm (o :: l) := by
  induction l with
  | nil => exact List.Perm.refl _
  | cons r rest ih =>
      by_cases hle : o.date ≤ r.date
      · rw [insertByDate, if_pos hle]
      · rw [insertByDate, if_neg hle]
        exact (ih.cons r).trans (List.Perm.swap o r rest)

lemma sortByDate_perm (l : List ObsQ) : (sortByDate l).Perm l := by
  induction l with
  | nil => exact List.Perm.refl _
  | cons o rest ih =>
      exact (insertByDate_perm o (sortByDate rest)).trans (ih.cons o)

lemma sortByDate_length (l : List ObsQ) : (sortByDate l).length = l.length :=
  (sortByDate_perm l).length_eq

lemma mem_insertByDate {o x : ObsQ} {l : List ObsQ}
    (h : x ∈ insertByDate o l) : x = o ∨ x ∈ l := by
  rcases List.mem_cons.1 ((insertByDate_perm o l).mem_iff.1 h) with h1 | h1
  · exact Or.inl h1
  · exact Or.inr h1

lemma insertByDate_pairwise (o : ObsQ) (l : List ObsQ)
    (h : List.Pairwise (fun a b : ObsQ => a.date ≤ b.date) l) :
    List.Pairwise (fun a b : ObsQ => a.date ≤ b.date) (insertByDate o l) := by
  induction l with
  | nil => simp [insertByDate]
  | cons r rest ih =>
      rcases List.pairwise_cons.1 h with ⟨hr, hrest⟩
      by_cases hle : o.date ≤ r.date
      · rw [insertByDate, if_pos hle]
        refine List.pairwise_cons.2 ⟨?_, h⟩
        intro x hx
        rcases List.mem_cons.1 hx with he | hx2
        · rw [he]; exact hle
        · exact le_trans hle (hr x hx2)
      · rw [insertByDate, if_neg hle]
        refine List.pairwise_cons.2 ⟨?_, ih hrest⟩
        intro x hx
        rcases mem_insertByDate hx with he | hx2
        · rw [he]; exact le_of_lt (not_le.1 hle)
        · exact hr x hx2

lemma sortByDate_pairwise (l : List ObsQ) :
    List.Pairwise (fun a b : ObsQ => a.date ≤ b.date) (sortByDate l) := by
  induction l with
  | nil => simp [sortByDate]
  | cons o rest ih => exact insertByDate_pairwise o (sortByDate rest) ih

/-- C10: the delta of a `(person, metric)` pair is null with fewer than
two observations; with history `[a, b]` (either frame order) and
`a.date < b.date` it is the later value minus the earlier value (null if
either value is missing); the sort underlying "latest" and
"second-latest" is a permutation ordered by ascending date; and the
concrete history `[10, 15]` gives delta 5. -/
theorem claim_C10_delta :
    (∀ (df : List ObsQ) (p m : String), (obsFor df p m).length < 2 →
      deltaFor df p m = none)
  ∧ (∀ (df : List ObsQ) (p m : String) (a b : ObsQ),
      (obsFor df p m = [a, b] ∨ obsFor df p m = [b, a]) → a.date < b.date →
      deltaFor df p m =
        match b.value_num, a.value_num with
        | some vb, some va => some (vb - va)
        | _, _ => none)
  ∧ (∀ (df : List ObsQ) (p m : String),
      (sortByDate (obsFor df p m)).Perm (obsFor df p m)
      ∧ (sortByDate (obsFor df p m)).Pairwise (fun x y => x.date ≤ y.date))
  ∧ deltaFor [⟨"p", "m", 1, some 10⟩, ⟨"p", "m", 2, some 15⟩] "p" "m" =
      some 5 := by
  refine ⟨?_, ?_, ?_, ?_⟩
  · intro df p m h
    have hlen : (sortByDate (obsFor df p m)).length < 2 := by
      rw [sortByDate_length]; exact h
    rcases hlist : sortByDate (obsFor df p m) with _ | ⟨x, _ | ⟨y, rest⟩⟩
    · simp [deltaFor, hlist]
    · simp [deltaFor, hlist]
    · rw [hlist] at hlen
      simp at hlen
      omega
  · intro df p m a b hor hab
    have hsort : sortByDate (obsFor df p m) = [a, b] := by
      rcases hor with h | h <;> rw [h] <;>
        simp [sortByDate, insertByDate, hab.le, not_le.2 hab]
    unfold deltaFor
    rw [hsort]
    rfl
  · intro df p m
    exact ⟨sortByDate_perm _, sortByDate_pairwise _⟩
  · have h : deltaFor [⟨"p", "m", 1, some 10⟩, ⟨"p", "m", 2, some 15⟩]
        "p" "m" = some ((15 : ℚ) - 10) := rfl
    rw [h]
    norm_num

/-- Witness for C10 at concrete input: a two-observation history given
in reverse frame order still yields latest minus second-latest. -/
theorem claim_C10_witness :
    deltaFor [⟨"q", "n", 7, some 40⟩, ⟨"q", "n", 3, some 25⟩] "q" "n" =
      some ((40 : ℚ) - 25) :=
  claim_C10_delta.2.1 [⟨"q", "n", 7, some 40⟩, ⟨"q", "n", 3, some 25⟩]
    "q" "n" ⟨"q", "n", 3, some 25⟩ ⟨"q", "n", 7, some 40⟩
    (Or.inr rfl) (by norm_num)

/-! ## C2 — component bounds -/

lemma engagementRate_nonneg {avg f : ℚ} (h : 0 ≤ avg) :
    0 ≤ engagementRate avg f := by
  unfold engagementRate
  split_ifs with hf
  · exact mul_nonneg (div_nonneg h hf.le) (by norm_num)
  · exact le_refl 0

lemma xScoreOf_bounds {avg f : ℚ} (h : 0 ≤ avg) :
    0 ≤ xScoreOf avg f ∧ xScoreOf avg f ≤ 100 :=
  ⟨le_min (mul_nonneg (engagementRate_nonneg h) (by norm_num)) (by norm_num),
    min_le_right _ _⟩

lemma meanEngagement_nonneg (rows : List XRow) : 0 ≤ meanEngagement rows := by
  apply div_nonneg _ (Nat.cast_nonneg _)
  apply List.sum_nonneg
  intro x hx
  rcases List.mem_map.1 hx with ⟨r, hrr, hre⟩
  rw [← hre]
  exact Nat.cast_nonneg _

lemma xScoreFor_bounds (x_df : List XRow) (c : String) :
    0 ≤ xScoreFor x_df c ∧ xScoreFor x_df c ≤ 100 := by
  rcases hr : xRowsFor x_df c with _ | ⟨r, rs⟩
  · unfold xScoreFor
    rw [hr]
    norm_num
  · unfold xScoreFor
    rw [hr]
    exact xScoreOf_bounds (meanEngagement_nonneg _)

lemma ytScoreOf_bounds {views : ℚ} (h : 0 ≤ views) :
    0 ≤ ytScoreOf views ∧ ytScoreOf views ≤ 100 :=
  ⟨le_min (mul_nonneg (div_nonneg h (by norm_num)) (by norm_num)) (by norm_num),
    min_le_right _ _⟩

lemma ytScoreFor_bounds (yt_df : List YtRow) (c : String) :
    0 ≤ ytScoreFor yt_df c ∧ ytScoreFor yt_df c ≤ 100 := by
  rcases hr : ytRowsFor yt_df c with _ | ⟨r, rs⟩
  · unfold ytScoreFor
    rw [hr]
    norm_num
  · unfold ytScoreFor
    rw [hr]
    exact ytScoreOf_bounds (Nat.cast_nonneg _)

lemma position_to_score_nonneg (p : Option ℤ) (maxp : ℤ) :
    0 ≤ position_to_score p maxp := by
  cases p with
  | none => exact le_refl 0
  | some r =>
      show (0 : ℤ) ≤ if maxp < r then 0 else max (100 - (r - 1)) 0
      split_ifs
      · exact le_refl 0
      · exact le_max_right _ _

lemma position_to_score_le {p : Option ℤ} (maxp : ℤ) (h : validRank p) :
    position_to_score p maxp ≤ 100 := by
  cases p with
  | none =>
      show (0 : ℤ) ≤ 100
      norm_num
  | some r =>
      have hr : 1 ≤ r := h r rfl
      show (if maxp < r then 0 else max (100 - (r - 1)) 0) ≤ 100
      split_ifs
      · norm_num
      · omega

lemma mem_if_singleton {α : Type} {x y : α} {c : Prop} [Decidable c]
    (h : x ∈ (if c then [y] else [])) : c ∧ x = y := by
  split_ifs at h with hc
  · exact ⟨hc, List.mem_singleton.1 h⟩
  · cases h

lemma chartParts_bounds {category : String} {sp bh b2 me : ℤ}
    (hsp : sp ≤ 100) (hbh : bh ≤ 100) (hb2 : b2 ≤ 100) (hme : me ≤ 100) :
    ∀ p ∈ chartParts category sp bh b2 me,
      0 < p.1 ∧ 0 ≤ p.2 ∧ p.2 ≤ 100 := by
  intro p hp
  unfold chartParts at hp
  rcases List.mem_append.1 hp with hp123 | hp4
  · rcases List.mem_append.1 hp123 with hp12 | hp3
    · rcases List.mem_append.1 hp12 with hp1 | hp2
      · rcases mem_if_singleton hp1 with ⟨hc, he⟩
        rw [he]
        dsimp only
        refine ⟨by norm_num, ?_, ?_⟩
        · exact le_of_lt (by exact_mod_cast hc)
        · exact_mod_cast hsp
      · rcases mem_if_singleton hp2 with ⟨hc, he⟩
        rw [he]
        dsimp only
        refine ⟨by norm_num, ?_, ?_⟩
        · exact le_of_lt (by exact_mod_cast hc)
        · exact_mod_cast hbh
    · rcases mem_if_singleton hp3 with ⟨hc, he⟩
      rw [he]
      dsimp only
      refine ⟨by norm_num, ?_, ?_⟩
      · exact le_of_lt (by exact_mod_cast hc)
      · exact_mod_cast hb2
  · rcases mem_if_singleton hp4 with ⟨hc, he⟩
    rw [he]
    dsimp only
    refine ⟨by norm_num, ?_, ?_⟩
    · exact le_of_lt (by exact_mod_cast hc.2)
    · exact_mod_cast hme

lemma chartScoreOf_bounds {parts : List (ℚ × ℚ)}
    (h : ∀ p ∈ parts, 0 < p.1 ∧ 0 ≤ p.2 ∧ p.2 ≤ 100) :
    0 ≤ chartScoreOf parts ∧ chartScoreOf parts ≤ 100 := by
  unfold chartScoreOf
  split_ifs with he
  · norm_num
  · have hW : 0 < (parts.map (·.1)).sum := by
      apply List.sum_pos
      · intro w hw
        rcases List.mem_map.1 hw with ⟨p, hp, hpw⟩
        rw [← hpw]
        exact (h p hp).1
      · simpa using he
    have hnum0 : 0 ≤ (parts.map (fun p => p.1 * p.2)).sum := by
      apply List.sum_nonneg
      intro x hx
      rcases List.mem_map.1 hx with ⟨p, hp, hpx⟩
      rw [← hpx]
      exact mul_nonneg (h p hp).1.le (h p hp).2.1
    have hnum1 : (parts.map (fun p => p.1 * p.2)).sum ≤
        100 * (parts.map (·.1)).sum := by
      have hstep : (parts.map (fun p => p.1 * p.2)).sum ≤
          (parts.map (fun p => 100 * p.1)).sum := by
        apply List.sum_le_sum
        intro p hp
        calc p.1 * p.2 ≤ p.1 * 100 :=
              mul_le_mul_of_nonneg_left (h p hp).2.2 (h p hp).1.le
        _ = 100 * p.1 := mul_comm _ _
      calc (parts.map (fun p => p.1 * p.2)).sum
          ≤ (parts.map (fun p => 100 * p.1)).sum := hstep
      _ = 100 * (parts.map (·.1)).sum := by
          rw [← List.sum_map_mul_left]
    constructor
    · exact div_nonneg hnum0 hW.le
    · rw [div_le_iff₀ hW]
      linarith

lemma chartComponentOf_bounds {row : ChartRow} {category : String}
    (h : validChartRow row) :
    0 ≤ chartComponentOf row category ∧ chartComponentOf row category ≤ 100 := by
  unfold chartComponentOf
  exact chartScoreOf_bounds
    (chartParts_bounds (position_to_score_le 200 h.1)
      (position_to_score_le 100 h.2.1) (position_to_score_le 200 h.2.2.1)
      (position_to_score_le 100 h.2.2.2))

lemma chartScoreFor_bounds (chart_df : Option (List ChartRow))
    (category c : String) (h : validChartBatch chart_df) :
    0 ≤ chartScoreFor chart_df category c ∧
      chartScoreFor chart_df category c ≤ 100 := by
  rcases hr : chartRowsFor chart_df c with _ | ⟨row, rest⟩
  · unfold chartScoreFor
    rw [hr]
    norm_num
  · have hrow : validChartRow row := by
      cases chart_df with
      | none =>
          have h0 : ([] : List ChartRow) = row :: rest := hr
          exact List.noConfusion h0
      | some l =>
          have hr2 : l.filter (fun r => r.celebrity = c) = row :: rest := hr
          have hmem : row ∈ l.filter (fun r => r.celebrity = c) := by
            rw [hr2]
            exact List.mem_cons_self _ _
          exact h row (List.mem_of_mem_filter hmem)
    unfold chartScoreFor
    rw [hr]
    exact chartComponentOf_bounds hrow

lemma scoreOne_signal_bounds (x_df : List XRow) (yt_df : List YtRow)
    (chart_df : Option (List ChartRow)) (c : String)
    (h : validChartBatch chart_df) :
    0 ≤ (scoreOne x_df yt_df chart_df c).signal_score ∧
      (scoreOne x_df yt_df chart_df c).signal_score ≤ 100 := by
  have hx := xScoreFor_bounds x_df c
  have hy := ytScoreFor_bounds yt_df c
  have hc := chartScoreFor_bounds chart_df (categoryOf x_df yt_df chart_df c) c h
  have harg0 : 0 ≤ 0.3 * xScoreFor x_df c + 0.2 * ytScoreFor yt_df c +
      0.5 * chartScoreFor chart_df (categoryOf x_df yt_df chart_df c) c := by
    have h1 := hx.1
    have h2 := hy.1
    have h3 := hc.1
    linarith
  have harg1 : 0.3 * xScoreFor x_df c + 0.2 * ytScoreFor yt_df c +
      0.5 * chartScoreFor chart_df (categoryOf x_df yt_df chart_df c) c ≤ 100 := by
    have h1 := hx.2
    have h2 := hy.2
    have h3 := hc.2
    linarith
  exact pyRound1_bounds harg0 harg1

/-! ## C2 — universe and sorting lemmas -/

lemma mem_dedupAux (l : List String) :
    ∀ (seen : List String) (x : String),
      x ∈ dedupAux seen l ↔ (x ∈ l ∧ x ∉ seen) := by
  induction l with
  | nil => intro seen x; simp [dedupAux]
  | cons a xs ih =>
      intro seen x
      by_cases ha : a ∈ seen
      · rw [dedupAux, if_pos ha, ih]
        constructor
        · rintro ⟨h1, h2⟩
          exact ⟨List.mem_cons_of_mem a h1, h2⟩
        · rintro ⟨h1, h2⟩
          rcases List.mem_cons.1 h1 with he | h1
          · rw [he] at h2
            exact absurd ha h2
          · exact ⟨h1, h2⟩
      · rw [dedupAux, if_neg ha]
        constructor
        · intro h
          rcases List.mem_cons.1 h with he | hrest
          · rw [he]
            exact ⟨List.mem_cons_self a xs, ha⟩
          · rcases (ih (a :: seen) x).1 hrest with ⟨h1, h2⟩
            exact ⟨List.mem_cons_of_mem a h1,
              fun hsx => h2 (List.mem_cons_of_mem a hsx)⟩
        · rintro ⟨h1, h2⟩
          rcases List.mem_cons.1 h1 with he | h1
          · rw [he]
            exact List.mem_cons_self a _
          · by_cases hxa : x = a
            · rw [hxa]
              exact List.mem_cons_self a _
            · exact List.mem_cons_of_mem a ((ih (a :: seen) x).2
                ⟨h1, fun hm => (List.mem_cons.1 hm).elim hxa h2⟩)

lemma dedupAux_nodup (l : List String) :
    ∀ seen : List String, (dedupAux seen l).Nodup := by
  induction l with
  | nil => intro seen; exact List.nodup_nil
  | cons a xs ih =>
      intro seen
      by_cases ha : a ∈ seen
      · rw [dedupAux, if_pos ha]
        exact ih seen
      · rw [dedupAux, if_neg ha]
        refine List.nodup_cons.2 ⟨?_, ih (a :: seen)⟩
        intro hmem
        exact ((mem_dedupAux xs (a :: seen) a).1 hmem).2 (List.mem_cons_self a seen)

lemma allCelebs_nodup (x_df : List XRow) (yt_df : List YtRow)
    (chart_df : Option (List ChartRow)) :
    (allCelebs x_df yt_df chart_df).Nodup :=
  dedupAux_nodup _ []

lemma insertDesc_perm (r : ResultRow) (l : List ResultRow) :
    (insertDesc r l).Perm (r :: l) := by
  induction l with
  | nil => exact List.Perm.refl _
  | cons s rest ih =>
      by_cases hle : s.signal_score < r.signal_score
      · rw [insertDesc, if_pos hle]
      · rw [insertDesc, if_neg hle]
        exact (ih.cons s).trans (List.Perm.swap r s rest)

lemma sortByScoreDesc_perm (l : List ResultRow) :
    (sortByScoreDesc l).Perm l := by
  induction l with
  | nil => exact List.Perm.refl _
  | cons r rest ih =>
      exact (insertDesc_perm r (sortByScoreDesc rest)).trans (ih.cons r)

lemma map_celebrity_scoreOne (x_df : List XRow) (yt_df : List YtRow)
    (chart_df : Option (List ChartRow)) (celebs : List String) :
    (celebs.map (scoreOne x_df yt_df chart_df)).map (·.celebrity) = celebs := by
  induction celebs with
  | nil => rfl
  | cons a t ih =>
      rw [List.map_cons, List.map_cons, ih]
      rfl

/-- C2 is violated in exactly one corner: with all batches empty the row
list is empty, `pd.DataFrame([])` has no columns, and
`sort_values('signal_score')` raises `KeyError` — the scorer does not
return an empty table.  Otherwise the claim holds: for any batches whose
present ranks are 1-based, a successful run has exactly one row per
person of the union, and every final score lies in `[0, 100]`. -/
theorem claim_C2_scorer :
    calculate_signal_score [] [] none = Except.error "KeyError: signal_score"
  ∧ (∀ (x_df : List XRow) (yt_df : List YtRow)
       (chart_df : Option (List ChartRow)) (res : List ResultRow),
      validChartBatch chart_df →
      calculate_signal_score x_df yt_df chart_df = Except.ok res →
      (∀ row ∈ res, 0 ≤ row.signal_score ∧ row.signal_score ≤ 100)
      ∧ ∀ c, (res.map (·.celebrity)).count c =
          if c ∈ allCelebs x_df yt_df chart_df then 1 else 0) := by
  constructor
  · rfl
  · intro x_df yt_df chart_df res hv hok
    have hres : res =
        sortByScoreDesc ((allCelebs x_df yt_df chart_df).map
          (scoreOne x_df yt_df chart_df)) := by
      unfold calculate_signal_score at hok
      dsimp only at hok
      split_ifs at hok with h
      cases hok
      rfl
    rw [hres]
    constructor
    · intro row hrow
      have hmem : row ∈ (allCelebs x_df yt_df chart_df).map
          (scoreOne x_df yt_df chart_df) :=
        (sortByScoreDesc_perm _).mem_iff.1 hrow
      rcases List.mem_map.1 hmem with ⟨c, hc, hce⟩
      rw [← hce]
      exact scoreOne_signal_bounds x_df yt_df chart_df c hv
    · intro c
      have hperm := ((sortByScoreDesc_perm ((allCelebs x_df yt_df
        chart_df).map (scoreOne x_df yt_df chart_df))).map (·.celebrity))
      rw [hperm.count_eq, map_celebrity_scoreOne]
      by_cases hc : c ∈ allCelebs x_df yt_df chart_df
      · rw [if_pos hc]
        exact List.count_eq_one_of_mem (allCelebs_nodup _ _ _) hc
      · rw [if_neg hc]
        exact List.count_eq_zero_of_not_mem hc

/-- Witness for C2 at concrete input: one social row yields a scored
run whose single row is bounded. -/
theorem claim_C2_witness :
    validChartBatch none ∧
    (0 ≤ (scoreOne [⟨"A", "K-pop", 1, 2, false⟩] [] none "A").signal_score ∧
      (scoreOne [⟨"A", "K-pop", 1, 2, false⟩] [] none "A").signal_score ≤ 100) :=
  ⟨trivial,
    (claim_C2_scorer.2 [⟨"A", "K-pop", 1, 2, false⟩] [] none _ trivial rfl).1
      (scoreOne [⟨"A", "K-pop", 1, 2, false⟩] [] none "A")
      (List.mem_singleton.2 rfl)⟩
